import Mathlib

/-!
Verification of the log-aggregator backend (`src/main.rs`).

The development shallowly embeds the core of the program:

* `LogEntry` — the log record (`struct LogEntry` in `main.rs`).
* `storeAppend` — the bounded-store mutation performed inside `post_log`
  (push, then `drain(0..len - 50_000)` when the length exceeds 50 000).
* `commitEntry` — the timestamp fill-in at the top of `post_log`
  (`if entry.timestamp.trim().is_empty() { entry.timestamp = Utc::now().to_rfc3339() }`);
  the wall-clock value is a parameter `now`.
* `get_logs` — the query handler (clone the store, `retain` on `service`,
  then `retain` on `level`); the presence of a query parameter is an
  `Option String`.
* `get_stats` — the stats handler (one pass building the `by_level` and
  `by_service` frequency tables); the `HashMap`s are embedded as
  association lists updated by `bump`, read by `lookupCount`.
* `BChannel`, `send`, `recv` — the `tokio::sync::broadcast` channel used
  for fan-out: a ring buffer of the last `cap` published messages; a
  subscriber is a cursor (sequence number); a lagging subscriber observes
  a lag error and is repositioned at the oldest retained message.
  `tokio` rounds the requested capacity 100 up to the next power of two,
  so the effective capacity is 128.
* `logsStreamDrain` — the SSE handler loop of `logs_stream`
  (`futures::stream::unfold`): `Ok(msg)` yields the frame
  `data: <msg>\n\n` and continues, any `Err(_)` — lag included — ends the
  stream; draining stops (status `waiting`) when `recv` would block.
* `post_log` — the ingest handler as a transformer of the whole server
  state (store, broadcast channel, Prometheus counter).
* `persistStep` — one iteration of the `persist_logs` snapshot loop; the
  outcome of the file open/write is a parameter, and the `.unwrap()`
  calls turn a file error into a panic that escapes the task.
-/

namespace LogAggregator

/-- The log record: `struct LogEntry { timestamp, service, level, message }`. -/
structure LogEntry where
  timestamp : String
  service : String
  level : String
  message : String
  deriving DecidableEq, Repr

/-- Store capacity: the literal `50_000` in `post_log`. -/
def CAP : Nat := 50000

/-- Unicode `White_Space` code points, the set recognised by Rust's
`char::is_whitespace`, which underlies `str::trim`. -/
def isRustWhitespace (c : Char) : Bool :=
  let n := c.toNat
  (0x0009 ≤ n && n ≤ 0x000D) || n == 0x0020 || n == 0x0085 || n == 0x00A0 ||
    n == 0x1680 || (0x2000 ≤ n && n ≤ 0x200A) || n == 0x2028 || n == 0x2029 ||
    n == 0x202F || n == 0x205F || n == 0x3000

/-- `s.trim().is_empty()` in Rust: `trim` strips leading and trailing
whitespace, so the result is empty exactly when every character of `s` is
whitespace (vacuously true for the empty string). -/
def rustTrimIsEmpty (s : String) : Bool :=
  s.data.all isRustWhitespace

/-- The timestamp fill-in of `post_log` (lines 62–66 of `main.rs`): if the
candidate timestamp is empty or whitespace it is replaced by the current
wall clock rendered in RFC3339 (passed in as `now`); otherwise the entry is
returned unchanged. -/
def commitEntry (log : LogEntry) (now : String) : LogEntry :=
  if rustTrimIsEmpty log.timestamp then { log with timestamp := now } else log

/-- The store mutation inside `post_log`'s critical section: push the entry,
then if the length exceeds `CAP` drain the oldest `len - CAP` entries. -/
def storeAppend (db : List LogEntry) (e : LogEntry) : List LogEntry :=
  let db2 := db ++ [e]
  let len := db2.length
  if len > CAP then db2.drop (len - CAP) else db2

/-- A sequence of sequential `storeAppend`s. -/
def appendAll (db : List LogEntry) (es : List LogEntry) : List LogEntry :=
  es.foldl storeAppend db

/-- The `get_logs` handler: clone the store, `retain` entries whose
`service` equals the `service` query parameter when present, then `retain`
entries whose `level` equals the `level` parameter when present. -/
def get_logs (db : List LogEntry) (serviceQ levelQ : Option String) : List LogEntry :=
  let filtered := db
  let filtered :=
    match serviceQ with
    | some s => filtered.filter (fun log => log.service == s)
    | none => filtered
  let filtered :=
    match levelQ with
    | some l => filtered.filter (fun log => log.level == l)
    | none => filtered
  filtered

/-- Spec-side description of a query filter: an absent parameter matches
everything, a present one demands exact string equality. -/
def specMatches (filt : Option String) (v : String) : Bool :=
  match filt with
  | none => true
  | some s => v == s

/-- `*map.entry(k).or_insert(0) += 1` on an association list: increment the
count stored under `k`, inserting `1` if `k` is absent. -/
def bump (m : List (String × Nat)) (k : String) : List (String × Nat) :=
  match m with
  | [] => [(k, 1)]
  | (k2, v) :: rest => if k2 == k then (k2, v + 1) :: rest else (k2, v) :: bump rest k

/-- Read a frequency table: the count stored under `k`, `0` if absent. -/
def lookupCount (m : List (String × Nat)) (k : String) : Nat :=
  match m with
  | [] => 0
  | (k2, v) :: rest => if k2 == k then v else lookupCount rest k

/-- Sum of all counts of a frequency table. -/
def sumValues (m : List (String × Nat)) : Nat :=
  (m.map Prod.snd).sum

/-- The `get_stats` handler: one pass over the store building the
`by_level` (first component) and `by_service` (second component)
frequency tables. -/
def get_stats (db : List LogEntry) : List (String × Nat) × List (String × Nat) :=
  db.foldl (fun acc log => (bump acc.1 log.level, bump acc.2 log.service)) ([], [])

/-- Hexadecimal digit, lower case, as produced by `serde_json`'s `\u00XX`
escapes. -/
def hexDigit (n : Nat) : Char :=
  if n < 10 then Char.ofNat (48 + n) else Char.ofNat (87 + n)

/-- `serde_json` string-character escaping: quote and backslash are
escaped, the control characters BS, TAB, LF, FF, CR get their short forms,
the remaining control characters become `\u00XX`. -/
def jsonEscapeChar (c : Char) : String :=
  if c = '"' then "\\\""
  else if c = '\\' then "\\\\"
  else if c = '\x08' then "\\b"
  else if c = '\t' then "\\t"
  else if c = '\n' then "\\n"
  else if c = '\x0c' then "\\f"
  else if c = '\r' then "\\r"
  else if c.toNat < 0x20 then
    String.mk ['\\', 'u', '0', '0', hexDigit (c.toNat / 16), hexDigit (c.toNat % 16)]
  else String.singleton c

/-- A JSON string literal. -/
def jsonString (s : String) : String :=
  "\"" ++ String.join (s.data.map jsonEscapeChar) ++ "\""

/-- `serde_json::to_string(&entry)`: the JSON object broadcast by
`post_log` (field order is the declaration order of `LogEntry`). -/
def serializeEntry (e : LogEntry) : String :=
  "\x7b" ++ jsonString "timestamp" ++ ":" ++ jsonString e.timestamp ++ "," ++
    jsonString "service" ++ ":" ++ jsonString e.service ++ "," ++
    jsonString "level" ++ ":" ++ jsonString e.level ++ "," ++
    jsonString "message" ++ ":" ++ jsonString e.message ++ "\x7d"

/-- The `tokio::sync::broadcast` channel: a ring buffer retaining the last
`cap` published messages. `oldest` is the sequence number of the oldest
retained message; message `oldest + i` is `buffer[i]`. A receiver is a
cursor: the sequence number of the next message it expects. -/
structure BChannel where
  cap : Nat
  oldest : Nat
  buffer : List String
  deriving DecidableEq, Repr

/-- Sequence number that the next `send` will use; also the cursor a fresh
subscriber starts at (`subscribe` delivers no backlog). -/
def BChannel.nextSeq (ch : BChannel) : Nat :=
  ch.oldest + ch.buffer.length

/-- `Sender::send`: append the message to the ring buffer; when the buffer
is full, the oldest retained message is overwritten (dropped). -/
def send (ch : BChannel) (m : String) : BChannel :=
  let buf := ch.buffer ++ [m]
  if buf.length > ch.cap then
    { cap := ch.cap, oldest := ch.oldest + 1, buffer := buf.drop 1 }
  else
    { cap := ch.cap, oldest := ch.oldest, buffer := buf }

/-- A sequence of `send`s. -/
def sendAll (ch : BChannel) (msgs : List String) : BChannel :=
  msgs.foldl send ch

/-- Outcome of `Receiver::recv` at a quiescent point: a message, a lag
error (`RecvError::Lagged`), or no message available yet (the real call
would suspend; the sender half is owned by the application state forever,
so `RecvError::Closed` never occurs in this program). -/
inductive RecvResult where
  | msg (m : String)
  | lagged (n : Nat)
  | pending
  deriving DecidableEq, Repr

/-- `Receiver::recv` for a receiver whose cursor is `pos`: a cursor older
than the oldest retained message yields `Lagged(n)` with `n` skipped
messages and the cursor jumps to the oldest retained message; a cursor
inside the buffer yields that message and advances; a cursor at the write
head has nothing to receive yet. -/
def recv (ch : BChannel) (pos : Nat) : RecvResult × Nat :=
  if pos < ch.oldest then
    (RecvResult.lagged (ch.oldest - pos), ch.oldest)
  else if h : pos - ch.oldest < ch.buffer.length then
    (RecvResult.msg (ch.buffer.get ⟨pos - ch.oldest, h⟩), pos + 1)
  else
    (RecvResult.pending, pos)

/-- The SSE frame built by `logs_stream`: `format!("data: {}\n\n", msg)`. -/
def sseFrame (m : String) : String :=
  "data: " ++ m ++ "\n\n"

/-- How a drain of the SSE stream ends: `terminated` means the unfold loop
returned `None` (the HTTP stream is closed), `waiting` means the loop is
suspended in `recv` awaiting the next message. -/
inductive StreamEnd where
  | terminated
  | waiting
  deriving DecidableEq, Repr

/-- Fuel-indexed unfolding of the `logs_stream` loop: on `Ok(msg)` emit the
SSE frame and continue with the advanced cursor; on `Err(_)` — which is how
the code treats a lag error — stop the stream for good; when no message is
available the loop is merely waiting. -/
def logsStreamDrainAux : Nat → BChannel → Nat → List String × StreamEnd
  | 0, _, _ => ([], StreamEnd.waiting)
  | fuel + 1, ch, pos =>
    match recv ch pos with
    | (RecvResult.msg m, pos2) =>
      let rest := logsStreamDrainAux fuel ch pos2
      (sseFrame m :: rest.1, rest.2)
    | (RecvResult.lagged _, _) => ([], StreamEnd.terminated)
    | (RecvResult.pending, _) => ([], StreamEnd.waiting)

/-- Drain the `logs_stream` loop of a subscriber with cursor `pos` at a
quiescent point (no concurrent `send`): the frames delivered and how the
loop is left. `ch.nextSeq - pos` steps suffice, since each delivered
message advances the cursor by one and the loop otherwise stops. -/
def logsStreamDrain (ch : BChannel) (pos : Nat) : List String × StreamEnd :=
  logsStreamDrainAux (ch.nextSeq - pos) ch pos

/-- Effective capacity of the channel created by
`broadcast::channel(100)`: `tokio` rounds the requested capacity up to the
next power of two, giving 128. -/
def BCAST_CAP : Nat := 128

/-- The broadcast channel as created in `main`: empty, capacity 128. -/
def freshChannel : BChannel :=
  { cap := BCAST_CAP, oldest := 0, buffer := [] }

/-- The shared state of the server: the log store behind the mutex, the
broadcast channel, and the Prometheus `total_logs` counter. -/
structure ServerState where
  db : List LogEntry
  chan : BChannel
  totalLogs : Nat
  deriving DecidableEq, Repr

/-- The `post_log` handler: fill in the timestamp, append to the bounded
store, broadcast the serialized entry, increment the counter. -/
def post_log (st : ServerState) (log : LogEntry) (now : String) : ServerState :=
  let entry := commitEntry log now
  { db := storeAppend st.db entry
    chan := send st.chan (serializeEntry entry)
    totalLogs := st.totalLogs + 1 }

/-- A sequence of `post_log` calls, each with its own wall-clock reading. -/
def postAll (st : ServerState) (reqs : List (LogEntry × String)) : ServerState :=
  reqs.foldl (fun s r => post_log s r.1 r.2) st

/-- A batch of messages that overflows the broadcast buffer: 129 publishes
into the capacity-128 channel. -/
def overflowMsgs : List String :=
  (List.range 129).map toString

/-- One iteration of the `persist_logs` loop body after the sleep: snapshot
the store; if non-empty, serialize it and open/write the snapshot file.
The outcome of the file system calls is the parameter `fileWrite`. The
code calls `.unwrap()` on `open` and on `write_all`, so a file error is
not caught: it becomes a panic that escapes (and kills) the persistence
task, modelled as `Except.error`. -/
def persistStep (logs : List LogEntry) (fileWrite : Except String Unit) :
    Except String Unit :=
  if logs.isEmpty then Except.ok ()
  else
    match fileWrite with
    | Except.ok () => Except.ok ()
    | Except.error e => Except.error e

/-! Helper lemmas. -/

theorem drop_append_drop {α : Type} (xs ys : List α) (a b : Nat) (h : a ≤ xs.length) :
    (xs.drop a ++ ys).drop b = (xs ++ ys).drop (a + b) := by
  rw [← List.drop_append_of_le_length h, List.drop_drop]

theorem appendAll_eq_drop (es : List LogEntry) :
    ∀ db : List LogEntry, db.length ≤ CAP →
      appendAll db es = (db ++ es).drop (db.length + es.length - CAP) := by
  induction es with
  | nil =>
    intro db h
    simp only [appendAll, List.foldl_nil, List.append_nil, List.length_nil, Nat.add_zero,
      Nat.sub_eq_zero_of_le h, List.drop_zero]
  | cons e es ih =>
    intro db h
    have step : appendAll db (e :: es) = appendAll (storeAppend db e) es := rfl
    rw [step]
    by_cases hover : (db ++ [e]).length > CAP
    · have hlen : db.length = CAP := by
        simp only [List.length_append, List.length_cons, List.length_nil] at hover
        omega
      have hone : (db ++ [e]).length - CAP = 1 := by
        simp only [List.length_append, List.length_cons, List.length_nil]
        omega
      have hsa : storeAppend db e = (db ++ [e]).drop 1 := by
        simp only [storeAppend, if_pos hover, hone]
      have hlen2 : ((db ++ [e]).drop 1).length ≤ CAP := by
        simp only [List.length_drop, List.length_append, List.length_cons, List.length_nil]
        omega
      rw [hsa, ih _ hlen2, drop_append_drop _ _ 1 _ (by simp)]
      have hamount : 1 + (((db ++ [e]).drop 1).length + es.length - CAP) =
          db.length + (e :: es).length - CAP := by
        simp only [List.length_drop, List.length_append, List.length_cons, List.length_nil]
        omega
      rw [hamount, List.append_assoc, List.singleton_append]
    · have hsa : storeAppend db e = db ++ [e] := by
        simp only [storeAppend, if_neg hover]
      have hlen2 : (db ++ [e]).length ≤ CAP := by omega
      rw [hsa, ih _ hlen2]
      have hamount : (db ++ [e]).length + es.length - CAP =
          db.length + (e :: es).length - CAP := by
        simp only [List.length_append, List.length_cons, List.length_nil]
        omega
      rw [hamount, List.append_assoc, List.singleton_append]

/-! Claim theorems about the store and the query path. -/

/-- Claim C1: starting from the empty store, after any sequence of
sequential appends the store holds exactly the last `min N CAP` appended
entries in arrival order, its length is `min N CAP`, and in particular the
length never exceeds `CAP` after any append returns (every intermediate
state is the fold over a prefix). -/
theorem capacity_invariant (es : List LogEntry) :
    appendAll [] es = es.drop (es.length - CAP) ∧
    (appendAll [] es).length = min es.length CAP ∧
    ∀ n : Nat, (appendAll [] (es.take n)).length ≤ CAP := by
  have main : ∀ fs : List LogEntry, appendAll [] fs = fs.drop (fs.length - CAP) := by
    intro fs
    have h := appendAll_eq_drop fs [] (by simp)
    simpa using h
  refine ⟨main es, ?_, ?_⟩
  · rw [main es]
    simp only [List.length_drop]
    omega
  · intro n
    rw [main _]
    simp only [List.length_drop, List.length_take]
    omega

/-- Claim C3: the query handler returns exactly the entries matching both
optional filters (an absent filter matches everything), as a filter of the
stored sequence — hence in arrival order, with no duplicates and no
omissions. -/
theorem filter_correctness (db : List LogEntry) (serviceQ levelQ : Option String) :
    get_logs db serviceQ levelQ =
      db.filter (fun e => specMatches serviceQ e.service && specMatches levelQ e.level) := by
  cases serviceQ <;> cases levelQ <;>
    simp [get_logs, specMatches, List.filter_filter, Bool.and_comm]

/-- Claim C10: a query parameter that is present but bound to the empty
string is an exact-match filter on the empty string, not an absent
filter. -/
theorem empty_filter_exact (db : List LogEntry) :
    get_logs db (some "") none = db.filter (fun e => e.service == "") ∧
    get_logs db none (some "") = db.filter (fun e => e.level == "") := by
  constructor <;> simp [get_logs]

/-! Frequency-table lemmas for the stats path. -/

theorem bump_sum (m : List (String × Nat)) (k : String) :
    sumValues (bump m k) = sumValues m + 1 := by
  induction m with
  | nil => simp [bump, sumValues]
  | cons p rest ih =>
    obtain ⟨k2, v⟩ := p
    by_cases h : k2 == k
    · simp only [bump, if_pos h, sumValues, List.map_cons, List.sum_cons]
      omega
    · simp only [bump, if_neg h, sumValues, List.map_cons, List.sum_cons] at ih ⊢
      omega

theorem bump_lookup (m : List (String × Nat)) (k k2 : String) :
    lookupCount (bump m k) k2 =
      lookupCount m k2 + (if k2 = k then 1 else 0) := by
  induction m with
  | nil =>
    by_cases h : k2 = k
    · subst h
      simp [bump, lookupCount]
    · have h2 : ¬ k = k2 := fun hh => h hh.symm
      simp [bump, lookupCount, beq_iff_eq, h, h2]
  | cons p rest ih =>
    obtain ⟨k3, v⟩ := p
    by_cases h3 : k3 = k
    · subst h3
      by_cases h2 : k3 = k2
      · subst h2
        simp [bump, lookupCount]
      · have h2b : ¬ k2 = k3 := fun hh => h2 hh.symm
        simp [bump, lookupCount, beq_iff_eq, h2, h2b]
    · by_cases h2 : k3 = k2
      · subst h2
        simp [bump, lookupCount, beq_iff_eq, h3]
      · simp [bump, lookupCount, beq_iff_eq, h3, h2, ih]

theorem statsFold_sum (f : LogEntry → String) (db : List LogEntry) :
    ∀ m : List (String × Nat),
      sumValues (db.foldl (fun m0 e => bump m0 (f e)) m) = sumValues m + db.length := by
  induction db with
  | nil => intro m; simp
  | cons e rest ih =>
    intro m
    rw [List.foldl_cons, ih, bump_sum]
    simp only [List.length_cons]
    omega

theorem statsFold_lookup (f : LogEntry → String) (db : List LogEntry) :
    ∀ (m : List (String × Nat)) (k : String),
      lookupCount (db.foldl (fun m0 e => bump m0 (f e)) m) k =
        lookupCount m k + (db.filter (fun e => f e == k)).length := by
  induction db with
  | nil => intro m k; simp
  | cons e rest ih =>
    intro m k
    rw [List.foldl_cons, ih, bump_lookup, List.filter_cons]
    by_cases h : f e = k
    · have hb : (f e == k) = true := by simpa [beq_iff_eq] using h
      have hk : k = f e := h.symm
      rw [if_pos hb, if_pos hk]
      simp only [List.length_cons]
      omega
    · have hb : ¬ ((f e == k) = true) := by simpa [beq_iff_eq] using h
      have hk : ¬ k = f e := fun hh => h hh.symm
      rw [if_neg hb, if_neg hk]
      omega

theorem get_stats_fold (db : List LogEntry) :
    ∀ acc : List (String × Nat) × List (String × Nat),
      db.foldl (fun acc0 log => (bump acc0.1 log.level, bump acc0.2 log.service)) acc =
        (db.foldl (fun m0 log => bump m0 log.level) acc.1,
          db.foldl (fun m0 log => bump m0 log.service) acc.2) := by
  induction db with
  | nil => intro acc; rfl
  | cons e rest ih =>
    intro acc
    rw [List.foldl_cons, List.foldl_cons, List.foldl_cons, ih]

/-- Claim C5: the stats handler produces frequency tables whose `by_level`
counts and `by_service` counts each sum to the store length, and the count
recorded under any key equals the number of stored entries carrying that
level (respectively service); a key that never occurs has count zero. -/
theorem stats_consistency (db : List LogEntry) :
    sumValues (get_stats db).1 = db.length ∧
    sumValues (get_stats db).2 = db.length ∧
    (∀ k : String,
      lookupCount (get_stats db).1 k = (db.filter (fun e => e.level == k)).length) ∧
    (∀ k : String,
      lookupCount (get_stats db).2 k = (db.filter (fun e => e.service == k)).length) := by
  have hg := get_stats_fold db ([], [])
  refine ⟨?_, ?_, ?_, ?_⟩
  · show sumValues (get_stats db).1 = db.length
    rw [show (get_stats db).1 = db.foldl (fun m0 log => bump m0 log.level) [] by
      rw [show get_stats db =
        db.foldl (fun acc0 log => (bump acc0.1 log.level, bump acc0.2 log.service)) ([], []) from rfl,
        hg]]
    have h := statsFold_sum (fun e => e.level) db []
    simpa [sumValues] using h
  · rw [show (get_stats db).2 = db.foldl (fun m0 log => bump m0 log.service) [] by
      rw [show get_stats db =
        db.foldl (fun acc0 log => (bump acc0.1 log.level, bump acc0.2 log.service)) ([], []) from rfl,
        hg]]
    have h := statsFold_sum (fun e => e.service) db []
    simpa [sumValues] using h
  · intro k
    rw [show (get_stats db).1 = db.foldl (fun m0 log => bump m0 log.level) [] by
      rw [show get_stats db =
        db.foldl (fun acc0 log => (bump acc0.1 log.level, bump acc0.2 log.service)) ([], []) from rfl,
        hg]]
    have h := statsFold_lookup (fun e => e.level) db [] k
    simpa [lookupCount] using h
  · intro k
    rw [show (get_stats db).2 = db.foldl (fun m0 log => bump m0 log.service) [] by
      rw [show get_stats db =
        db.foldl (fun acc0 log => (bump acc0.1 log.level, bump acc0.2 log.service)) ([], []) from rfl,
        hg]]
    have h := statsFold_lookup (fun e => e.service) db [] k
    simpa [lookupCount] using h

/-! Claim theorems about the ingest path. -/

/-- Claim C6: if the candidate timestamp is empty or whitespace-only, the
committed entry carries the server clock reading `now` (an RFC3339
rendering of the current time, which is a non-empty string — hypothesis
`hnow`); otherwise the candidate timestamp is kept unchanged. -/
theorem timestamp_assignment (e : LogEntry) (now : String) (hnow : now ≠ "") :
    (rustTrimIsEmpty e.timestamp = true →
      (commitEntry e now).timestamp = now ∧ (commitEntry e now).timestamp ≠ "") ∧
    (rustTrimIsEmpty e.timestamp = false →
      (commitEntry e now).timestamp = e.timestamp) := by
  constructor
  · intro h
    refine ⟨by simp [commitEntry, h], ?_⟩
    simpa [commitEntry, h] using hnow
  · intro h
    simp [commitEntry, h]

/-- Witness for C6 at a whitespace-only candidate timestamp and a concrete
clock reading. -/
theorem timestamp_assignment_witness :
    ("2026-01-01T00:00:00+00:00" : String) ≠ "" ∧
    ((rustTrimIsEmpty (LogEntry.mk " " "auth" "ERROR" "boom").timestamp = true →
      (commitEntry (LogEntry.mk " " "auth" "ERROR" "boom")
        "2026-01-01T00:00:00+00:00").timestamp = "2026-01-01T00:00:00+00:00" ∧
      (commitEntry (LogEntry.mk " " "auth" "ERROR" "boom")
        "2026-01-01T00:00:00+00:00").timestamp ≠ "") ∧
    (rustTrimIsEmpty (LogEntry.mk " " "auth" "ERROR" "boom").timestamp = false →
      (commitEntry (LogEntry.mk " " "auth" "ERROR" "boom")
        "2026-01-01T00:00:00+00:00").timestamp =
          (LogEntry.mk " " "auth" "ERROR" "boom").timestamp)) :=
  ⟨by decide,
    timestamp_assignment (LogEntry.mk " " "auth" "ERROR" "boom")
      "2026-01-01T00:00:00+00:00" (by decide)⟩

/-- Claim C9: the committed entry — the value both stored and broadcast —
keeps the candidate's `service`, `level` and `message` verbatim; its
timestamp equals the candidate's unless the candidate timestamp was empty
or whitespace-only, in which case (and only in which case) it is the clock
reading. -/
theorem ingest_frame (e : LogEntry) (now : String) :
    (commitEntry e now).service = e.service ∧
    (commitEntry e now).level = e.level ∧
    (commitEntry e now).message = e.message ∧
    (commitEntry e now).timestamp =
      (if rustTrimIsEmpty e.timestamp then now else e.timestamp) := by
  unfold commitEntry
  by_cases h : rustTrimIsEmpty e.timestamp <;> simp [h]

/-- Claim C8: each `post_log` call increments the Prometheus `total_logs`
counter exactly once, so a batch of `N` ingests raises it by `N`. -/
theorem counter_increment (st : ServerState) (reqs : List (LogEntry × String)) :
    (postAll st reqs).totalLogs = st.totalLogs + reqs.length := by
  induction reqs generalizing st with
  | nil => simp [postAll]
  | cons r rest ih =>
    show (postAll (post_log st r.1 r.2) rest).totalLogs = _
    rw [ih]
    simp only [post_log, List.length_cons]
    omega

/-- Claim C4 (code bug): in `persist_logs` a failing snapshot open/write is
not caught — the `.unwrap()` turns it into a panic that escapes the
persistence task, evaluated here at a concrete failing input. -/
theorem snapshot_failure_panics :
    persistStep [LogEntry.mk "t" "auth" "ERROR" "boom"] (Except.error "disk full") =
      Except.error "disk full" := rfl

/-! Broadcast-channel lemmas. -/

theorem recv_msg {ch : BChannel} {pos : Nat} (h1 : ch.oldest ≤ pos)
    (h2 : pos - ch.oldest < ch.buffer.length) :
    recv ch pos = (RecvResult.msg (ch.buffer.get ⟨pos - ch.oldest, h2⟩), pos + 1) := by
  unfold recv
  rw [if_neg (Nat.not_lt.mpr h1), dif_pos h2]

theorem recv_lagged {ch : BChannel} {pos : Nat} (h : pos < ch.oldest) :
    recv ch pos = (RecvResult.lagged (ch.oldest - pos), ch.oldest) := by
  unfold recv
  rw [if_pos h]

theorem recv_pending {ch : BChannel} {pos : Nat} (h1 : ch.oldest ≤ pos)
    (h2 : ch.buffer.length ≤ pos - ch.oldest) :
    recv ch pos = (RecvResult.pending, pos) := by
  unfold recv
  rw [if_neg (Nat.not_lt.mpr h1), dif_neg (Nat.not_lt.mpr h2)]

theorem drainAux_msg {ch : BChannel} {pos fuel : Nat} {m : String} {pos2 : Nat}
    (h : recv ch pos = (RecvResult.msg m, pos2)) :
    logsStreamDrainAux (fuel + 1) ch pos =
      (sseFrame m :: (logsStreamDrainAux fuel ch pos2).1,
        (logsStreamDrainAux fuel ch pos2).2) := by
  simp [logsStreamDrainAux, h]

theorem drainAux_lagged {ch : BChannel} {pos fuel : Nat} {n p2 : Nat}
    (h : recv ch pos = (RecvResult.lagged n, p2)) :
    logsStreamDrainAux (fuel + 1) ch pos = ([], StreamEnd.terminated) := by
  simp [logsStreamDrainAux, h]

theorem drainAux_pending {ch : BChannel} {pos fuel : Nat} {p2 : Nat}
    (h : recv ch pos = (RecvResult.pending, p2)) :
    logsStreamDrainAux (fuel + 1) ch pos = ([], StreamEnd.waiting) := by
  simp [logsStreamDrainAux, h]

theorem drainAux_no_lag (fuel : Nat) :
    ∀ (ch : BChannel) (pos : Nat), ch.oldest ≤ pos → ch.nextSeq - pos ≤ fuel →
      logsStreamDrainAux fuel ch pos =
        ((ch.buffer.drop (pos - ch.oldest)).map sseFrame, StreamEnd.waiting) := by
  induction fuel with
  | zero =>
    intro ch pos h1 h2
    have hge : ch.buffer.length ≤ pos - ch.oldest := by
      unfold BChannel.nextSeq at h2
      omega
    simp [logsStreamDrainAux, List.drop_eq_nil_of_le hge]
  | succ fuel ih =>
    intro ch pos h1 h2
    by_cases hin : pos - ch.oldest < ch.buffer.length
    · rw [drainAux_msg (recv_msg h1 hin)]
      rw [ih ch (pos + 1) (by omega) (by unfold BChannel.nextSeq at h2 ⊢; omega)]
      have harith : pos - ch.oldest + 1 = pos + 1 - ch.oldest := by omega
      have hidx : ch.buffer.drop (pos - ch.oldest) =
          ch.buffer.get ⟨pos - ch.oldest, hin⟩ :: ch.buffer.drop (pos + 1 - ch.oldest) := by
        rw [List.drop_eq_getElem_cons hin, harith]
        simp [List.get_eq_getElem]
      rw [hidx]
      simp
    · rw [drainAux_pending (recv_pending h1 (Nat.not_lt.mp hin))]
      have hge : ch.buffer.length ≤ pos - ch.oldest := Nat.not_lt.mp hin
      simp [List.drop_eq_nil_of_le hge]

theorem drain_of_le (ch : BChannel) (pos : Nat) (h : ch.oldest ≤ pos) :
    logsStreamDrain ch pos =
      ((ch.buffer.drop (pos - ch.oldest)).map sseFrame, StreamEnd.waiting) :=
  drainAux_no_lag _ ch pos h (Nat.le_refl _)

theorem drain_lagged (ch : BChannel) (pos : Nat) (h : pos < ch.oldest) :
    logsStreamDrain ch pos = ([], StreamEnd.terminated) := by
  unfold logsStreamDrain
  have hfuel : ch.nextSeq - pos = (ch.nextSeq - pos - 1) + 1 := by
    unfold BChannel.nextSeq
    omega
  rw [hfuel, drainAux_lagged (recv_lagged h)]

theorem sendAll_spec (msgs : List String) :
    ∀ ch : BChannel, ch.buffer.length ≤ ch.cap →
      (sendAll ch msgs).cap = ch.cap ∧
      (sendAll ch msgs).oldest = ch.oldest + (ch.buffer.length + msgs.length - ch.cap) ∧
      (sendAll ch msgs).buffer =
        (ch.buffer ++ msgs).drop (ch.buffer.length + msgs.length - ch.cap) := by
  induction msgs with
  | nil =>
    intro ch h
    have hz : ch.buffer.length + ([] : List String).length - ch.cap = 0 := by
      simp only [List.length_nil]
      omega
    rw [hz]
    simp [sendAll]
  | cons m ms ih =>
    intro ch h
    have step : sendAll ch (m :: ms) = sendAll (send ch m) ms := rfl
    rw [step]
    by_cases hover : (ch.buffer ++ [m]).length > ch.cap
    · have hcapeq : ch.buffer.length = ch.cap := by
        simp only [List.length_append, List.length_cons, List.length_nil] at hover
        omega
      have hsend : send ch m =
          { cap := ch.cap, oldest := ch.oldest + 1, buffer := (ch.buffer ++ [m]).drop 1 } := by
        simp only [send, if_pos hover]
      rw [hsend]
      obtain ⟨h1, h2, h3⟩ := ih
        { cap := ch.cap, oldest := ch.oldest + 1, buffer := (ch.buffer ++ [m]).drop 1 }
        (by simp only [List.length_drop, List.length_append, List.length_cons, List.length_nil]
            omega)
      refine ⟨h1, ?_, ?_⟩
      · rw [h2]
        simp only [List.length_drop, List.length_append, List.length_cons, List.length_nil]
        omega
      · rw [h3, drop_append_drop _ _ 1 _ (by simp)]
        have hamount : 1 + (((ch.buffer ++ [m]).drop 1).length + ms.length - ch.cap) =
            ch.buffer.length + (m :: ms).length - ch.cap := by
          simp only [List.length_drop, List.length_append, List.length_cons, List.length_nil]
          omega
        rw [hamount, List.append_assoc, List.singleton_append]
    · have hsend : send ch m =
          { cap := ch.cap, oldest := ch.oldest, buffer := ch.buffer ++ [m] } := by
        simp only [send, if_neg hover]
      rw [hsend]
      obtain ⟨h1, h2, h3⟩ := ih
        { cap := ch.cap, oldest := ch.oldest, buffer := ch.buffer ++ [m] }
        (by simp only [List.length_append, List.length_cons, List.length_nil] at hover ⊢
            omega)
      refine ⟨h1, ?_, ?_⟩
      · rw [h2]
        simp only [List.length_append, List.length_cons, List.length_nil]
        omega
      · rw [h3]
        have hamount : (ch.buffer ++ [m]).length + ms.length - ch.cap =
            ch.buffer.length + (m :: ms).length - ch.cap := by
          simp only [List.length_append, List.length_cons, List.length_nil]
          omega
        rw [hamount, List.append_assoc, List.singleton_append]

/-! Claim theorems about the broadcast path. -/

/-- Claim C7: a subscriber whose cursor is at the channel's write head
(the cursor a fresh `subscribe` returns, so no backlog is visible to it)
and whose queue bound is never exceeded by the batch receives, on
draining, exactly the published messages in publish order — each framed as
an SSE `data:` frame — and its stream stays open, awaiting more. -/
theorem broadcast_liveness (ch : BChannel) (msgs : List String)
    (hlen : ch.buffer.length ≤ ch.cap) (hK : msgs.length ≤ ch.cap) :
    logsStreamDrain (sendAll ch msgs) ch.nextSeq =
      (msgs.map sseFrame, StreamEnd.waiting) := by
  obtain ⟨hcap, hold, hbuf⟩ := sendAll_spec msgs ch hlen
  have hle : (sendAll ch msgs).oldest ≤ ch.nextSeq := by
    rw [hold]
    unfold BChannel.nextSeq
    omega
  rw [drain_of_le _ _ hle, hbuf, hold]
  have hd : ch.nextSeq - (ch.oldest + (ch.buffer.length + msgs.length - ch.cap)) =
      ch.buffer.length - (ch.buffer.length + msgs.length - ch.cap) := by
    unfold BChannel.nextSeq
    omega
  rw [hd, List.drop_drop]
  have harith : ch.buffer.length + msgs.length - ch.cap +
      (ch.buffer.length - (ch.buffer.length + msgs.length - ch.cap)) = ch.buffer.length := by
    omega
  rw [harith, List.drop_left]

/-- Witness for C7: three publishes into the fresh capacity-128 channel
with a subscriber that subscribed first. -/
theorem broadcast_liveness_witness :
    freshChannel.buffer.length ≤ freshChannel.cap ∧
    (["a", "b", "c"] : List String).length ≤ freshChannel.cap ∧
    logsStreamDrain (sendAll freshChannel ["a", "b", "c"]) freshChannel.nextSeq =
      (["a", "b", "c"].map sseFrame, StreamEnd.waiting) :=
  ⟨by decide, by decide,
    broadcast_liveness freshChannel ["a", "b", "c"] (by decide) (by decide)⟩

set_option maxRecDepth 40000 in
/-- Counterexample for C2 as stated: 129 publishes overflow the
capacity-128 broadcast buffer; the subscriber that subscribed at sequence
0 and then drains receives no frame at all and its stream is terminated —
even though 128 not-yet-dropped messages are still retained — instead of
being delivered a gap signal and then the retained messages. -/
theorem lag_no_gap_signal_cex :
    logsStreamDrain (sendAll freshChannel overflowMsgs) 0 = ([], StreamEnd.terminated) ∧
    (sendAll freshChannel overflowMsgs).buffer.length = 128 := by
  constructor <;> decide

/-- Claim C2 (amended): when more messages are published after a
subscription than the channel capacity retains, the oldest undelivered
messages for that subscriber are dropped, and on its next receive the lag
error makes the `logs_stream` loop terminate the subscriber's stream: no
gap frame is delivered and no subsequent message is received. -/
theorem lag_terminates_stream (ch : BChannel) (msgs : List String)
    (hlen : ch.buffer.length ≤ ch.cap) (hover : ch.cap < msgs.length) :
    logsStreamDrain (sendAll ch msgs) ch.nextSeq = ([], StreamEnd.terminated) := by
  obtain ⟨hcap, hold, hbuf⟩ := sendAll_spec msgs ch hlen
  apply drain_lagged
  rw [hold]
  unfold BChannel.nextSeq
  omega

set_option maxRecDepth 40000 in
/-- Witness for the amended C2: the overflowing batch of 129 messages into
the fresh capacity-128 channel. -/
theorem lag_terminates_stream_witness :
    freshChannel.buffer.length ≤ freshChannel.cap ∧
    freshChannel.cap < overflowMsgs.length ∧
    logsStreamDrain (sendAll freshChannel overflowMsgs) freshChannel.nextSeq =
      ([], StreamEnd.terminated) :=
  ⟨by decide, by decide,
    lag_terminates_stream freshChannel overflowMsgs (by decide) (by decide)⟩

end LogAggregator
